import Mathlib

/-!
# Verification of the ResourceManagers simulation engine

Shallow embedding of `Manager.py` (the simulation engine driving the
optimistic and Banker's resource-allocation policies) together with the
`Task`, `Resource` and `Instruction` collaborators, which are not part of
the sources and are therefore modelled from the specification where noted.

Python `dict`s keyed by small consecutive integers are modelled as lists in
key order (the order the program relies on for its "lowest task id first"
behaviour); the `OrderedDict` wait queue is a list of task ids in insertion
order.  Run-time exceptions of the Python program (undefined names, missing
keys, invalid indices) are modelled with an explicit error monad.
-/

namespace RM

/-- Errors the Python program can raise at run time. `nameError` stands for
the `NameError` raised when the undefined name `optimisticRequest` is called
in `resolveDeadlock`; `keyError`/`indexError` model dictionary and list
access failures; `fatalFree` and `fatalRelease` model the fatal invariant
breaches of `Resource.freeUnits` and `Task.releaseResource` described by
the specification (sections 4.1, 4.2 and 7). -/
inductive Err where
  | nameError
  | keyError
  | indexError
  | fatalFree
  | fatalRelease
  deriving DecidableEq, Repr

/-- The run-mode switch (`class ManagerType` in `Manager.py`). -/
inductive ManagerType where
  | OPTIMISTIC
  | BANKER
  deriving DecidableEq, Repr, BEq

/-- One scripted step of a task (`Instruction.py`, fields as parsed by
`parseInputData`). -/
structure Instruction where
  command : String
  taskID : Nat
  delay : Nat
  resourceType : Nat
  numUnits : Nat
  deriving DecidableEq, Repr

/-- Task lifecycle status; Waiting is a separate sub-flag of Active. -/
inductive Status where
  | active
  | finished
  | aborted
  deriving DecidableEq, Repr, BEq

/-- Association-list lookup with default 0, for the unit maps
(`heldUnits`, `claims`, `freeBuffer`). -/
def lookupA (l : List (Nat × Nat)) (k : Nat) : Nat :=
  match l.find? (fun p => p.1 == k) with
  | some p => p.2
  | none => 0

/-- Whether the key is present in an association list. -/
def memA (l : List (Nat × Nat)) (k : Nat) : Bool :=
  (l.find? (fun p => p.1 == k)).isSome

/-- Add `n` to the entry at `k`, inserting the key if absent
(Python `d[k] += n` with a presence check, as in `placeIntoFreeBuffer`). -/
def insertAdd (l : List (Nat × Nat)) (k : Nat) (n : Nat) : List (Nat × Nat) :=
  if memA l k then
    l.map (fun p => if p.1 == k then (p.1, p.2 + n) else p)
  else
    l ++ [(k, n)]

/-- Subtract `n` from the entry at `k` (used only under a sufficiency
check). -/
def subA (l : List (Nat × Nat)) (k : Nat) (n : Nat) : List (Nat × Nat) :=
  l.map (fun p => if p.1 == k then (p.1, p.2 - n) else p)

/-- Set the entry at `k` to `n`, inserting the key if absent. -/
def insertSet (l : List (Nat × Nat)) (k : Nat) (n : Nat) : List (Nat × Nat) :=
  if memA l k then
    l.map (fun p => if p.1 == k then (p.1, n) else p)
  else
    l ++ [(k, n)]

/-- Modelled from the spec: `Resource` (section 3), a pool with an
immutable `totalUnits` and a mutable `busyUnits`;
`availableUnits = totalUnits - busyUnits`.  `Resource.py` is not among
the sources. -/
structure Resource where
  id : Nat
  totalUnits : Nat
  busyUnits : Nat
  deriving DecidableEq, Repr

/-- Derived available units of a resource. -/
def Resource.getNumAvailable (r : Resource) : Nat :=
  r.totalUnits - r.busyUnits

/-- Modelled from the spec: `Resource.takeUnits` (section 4.1) succeeds iff
`n ≤ availableUnits` and then increments `busyUnits`; otherwise it is a
no-op signalling failure. -/
def Resource.takeUnits (r : Resource) (n : Nat) : Bool × Resource :=
  if n ≤ r.getNumAvailable then
    (true, { r with busyUnits := r.busyUnits + n })
  else
    (false, r)

/-- Modelled from the spec: `Resource.freeUnits` (section 4.1) decrements
`busyUnits` by `n`; `n ≤ busyUnits` is required, violating it is a fatal
invariant breach. -/
def Resource.freeUnits (r : Resource) (n : Nat) : Except Err Resource :=
  if n ≤ r.busyUnits then
    .ok { r with busyUnits := r.busyUnits - n }
  else
    .error .fatalFree

/-- Modelled from the spec: `Task` (section 3): program with program
counter, lifecycle status with Waiting sub-flag, held units, declared
claims, running/waiting counters and completion tick.  `Task.py` is not
among the sources. -/
structure Task where
  id : Nat
  instructions : List Instruction
  pc : Nat
  status : Status
  waiting : Bool
  held : List (Nat × Nat)
  claims : List (Nat × Nat)
  runningTime : Nat
  waitingTime : Nat
  endTime : Option Nat
  deriving DecidableEq, Repr

/-- A task is active exactly when its status is Active (Waiting is a
sub-state of Active). -/
def Task.isActive (t : Task) : Bool := t.status == Status.active

/-- The Waiting sub-flag. -/
def Task.isWaiting (t : Task) : Bool := t.waiting

/-- Whether the task has terminated normally. -/
def Task.isFinished (t : Task) : Bool := t.status == Status.finished

/-- Whether the task was aborted. -/
def Task.isAborted (t : Task) : Bool := t.status == Status.aborted

/-- The instruction at the program counter, if any (Python raises
`IndexError` past the end; callers receive `none` here and the engine
turns it into the corresponding error). -/
def Task.getCurrentInstruction (t : Task) : Option Instruction :=
  t.instructions[t.pc]?

/-- Decrement the delay of the current instruction (the engine's
`instruction.delay -= 1`, which mutates the instruction owned by the
task). -/
def Task.decDelay (t : Task) : Task :=
  match t.instructions[t.pc]? with
  | some ins =>
      { t with instructions := t.instructions.set t.pc { ins with delay := ins.delay - 1 } }
  | none => t

/-- Modelled from the spec: `Task.advance` (section 4.2) increments the
program counter; on exhaustion an Active task transitions to Finished
(the completion tick is stamped separately by the engine, which calls
`clockEndTime`).  Source name: `incInstruction`. -/
def Task.incInstruction (t : Task) : Task :=
  let t1 := { t with pc := t.pc + 1 }
  if t1.instructions.length ≤ t1.pc ∧ t1.status = Status.active then
    { t1 with status := Status.finished }
  else
    t1

/-- Modelled from the spec: stamp the completion tick (section 4.2). -/
def Task.clockEndTime (t : Task) (clock : Nat) : Task :=
  { t with endTime := some clock }

/-- Modelled from the spec: enter the Waiting sub-state (section 4.2,
`enterWait`). -/
def Task.wait (t : Task) : Task := { t with waiting := true }

/-- Modelled from the spec: leave the Waiting sub-state (section 4.2,
`leaveWait`). -/
def Task.stopWaiting (t : Task) : Task := { t with waiting := false }

/-- Modelled from the spec: the waiting-time counter increment
(section 4.2). -/
def Task.incWaitingTime (t : Task) : Task :=
  { t with waitingTime := t.waitingTime + 1 }

/-- Modelled from the spec: the running-time counter increment of the
per-cycle accounting (section 4.2).  The engine source calls no explicit
running-time method; per the spec the increment belongs to the
not-waiting branch at the end of instruction dispatch, where the engine
calls `incInstruction`, so the embedding performs it there. -/
def Task.incRunningTime (t : Task) : Task :=
  { t with runningTime := t.runningTime + 1 }

/-- Modelled from the spec: `Task.grant` (section 4.2) adds granted units
to `heldUnits`.  Source name: `grantResource`. -/
def Task.grantResource (t : Task) (rid : Nat) (n : Nat) : Task :=
  { t with held := insertAdd t.held rid n }

/-- Modelled from the spec: `Task.release` (section 4.2) removes units
from `heldUnits` maintaining non-negativity; releasing more than held is
a fatal invariant breach (section 7).  Source name: `releaseResource`. -/
def Task.releaseResource (t : Task) (rid : Nat) (n : Nat) : Except Err Task :=
  if n ≤ lookupA t.held rid then
    .ok { t with held := subA t.held rid n }
  else
    .error .fatalRelease

/-- Modelled from the spec: `Task.abort` (section 4.2) flips the status
to Aborted and clears `heldUnits`; returning the units to the pool is the
caller's responsibility. -/
def Task.abort (t : Task) : Task :=
  { t with status := Status.aborted, held := [] }

/-- Modelled from the spec: `Task.declareClaim` (section 4.2) records the
declared maximum claim for a resource.  Source name: `setClaims`. -/
def Task.setClaims (t : Task) (rid : Nat) (n : Nat) : Task :=
  { t with claims := insertSet t.claims rid n }

/-- The held-units map of a task (`getAllResources` in the source). -/
def Task.getAllResources (t : Task) : List (Nat × Nat) := t.held

/-- The engine state: the module-level registries of `Manager.py`.
`tasks` and `resources` are in key (= id) order, `waitingTasks` is the
`OrderedDict` wait queue as a list of task ids in insertion order,
`readyTasks` is the per-cycle already-serviced marker, `freeBuffer` the
deferred-release buffer and `sysClock` the logical clock. -/
structure MState where
  tasks : List Task
  resources : List Resource
  waitingTasks : List Nat
  readyTasks : List Nat
  freeBuffer : List (Nat × Nat)
  sysClock : Nat
  deriving DecidableEq, Repr

/-- Look a task up by id. -/
def findTask (s : MState) (tid : Nat) : Option Task :=
  s.tasks.find? (fun t => t.id == tid)

/-- Look a resource up by id. -/
def findRes (s : MState) (rid : Nat) : Option Resource :=
  s.resources.find? (fun r => r.id == rid)

/-- Store an updated task back into the registry (Python mutates the
shared `Task` object in place; here every entry with the same id is
replaced). -/
def setTask (s : MState) (t : Task) : MState :=
  { s with tasks := s.tasks.map (fun u => if u.id == t.id then t else u) }

/-- Store an updated resource back into the registry. -/
def setRes (s : MState) (r : Resource) : MState :=
  { s with resources := s.resources.map (fun u => if u.id == r.id then r else u) }

/-- Source function isFinished of `Manager.py`: no task is active. -/
def isFinished (s : MState) : Bool :=
  s.tasks.all (fun t => !t.isActive)

/-- Source function isDeadlocked of `Manager.py`: every active task is waiting and the
run is not finished. -/
def isDeadlocked (s : MState) : Bool :=
  s.tasks.all (fun t => !(t.isActive && !t.isWaiting)) && !(isFinished s)

/-- Source function isSafe of `Manager.py`: the Banker's safety check as implemented in
the source, which returns `True` unconditionally (a stub — the spec flags
this as a known incompleteness). -/
def isSafe (_t : Task) (_i : Instruction) : Bool := true

/-- Source function getLowestDeadlockedTask of `Manager.py`: the first task in registry
order that is waiting and active. -/
def getLowestDeadlockedTask (s : MState) : Option Task :=
  s.tasks.find? (fun t => t.isWaiting && t.isActive)

/-- Source function placeIntoFreeBuffer of `Manager.py`: accumulate freed units in the
deferred-release buffer. -/
def placeIntoFreeBuffer (s : MState) (rid : Nat) (n : Nat) : MState :=
  { s with freeBuffer := insertAdd s.freeBuffer rid n }

/-- Flush one buffer entry into its resource. -/
def applyFree (rs : List Resource) (rid : Nat) (n : Nat) : Except Err (List Resource) :=
  match rs.find? (fun r => r.id == rid) with
  | none => .error .keyError
  | some r =>
      match r.freeUnits n with
      | .ok r' => .ok (rs.map (fun u => if u.id == r'.id then r' else u))
      | .error e => .error e

/-- Flush a list of buffer entries in order. -/
def cleanAux : List (Nat × Nat) → List Resource → Except Err (List Resource)
  | [], rs => .ok rs
  | (rid, n) :: rest, rs =>
      match applyFree rs rid n with
      | .ok rs' => cleanAux rest rs'
      | .error e => .error e

/-- Source function cleanFreeBuffer of `Manager.py`: move every buffered unit into its
resource's availability and empty the buffer. -/
def cleanFreeBuffer (s : MState) : Except Err MState :=
  match cleanAux s.freeBuffer s.resources with
  | .ok rs => .ok { s with resources := rs, freeBuffer := [] }
  | .error e => .error e

/-- Source function standardRequest of `Manager.py`: fulfil the request if enough units
are available, otherwise put the task into the wait queue. -/
def standardRequest (s : MState) (t : Task) (i : Instruction) : Except Err MState :=
  if i.delay ≠ 0 then
    .ok (setTask s t.decDelay)
  else
    match findRes s i.resourceType with
    | none => .error .keyError
    | some r =>
        if i.numUnits ≤ r.getNumAvailable then
          let t1 := t.stopWaiting
          let s1 := setTask s t1
          let s2 := { s1 with readyTasks := s1.readyTasks ++ [t1.id] }
          let s3 :=
            if s2.waitingTasks.contains t1.id then
              { s2 with waitingTasks := s2.waitingTasks.filter (fun x => x != t1.id) }
            else s2
          let (okTake, r') := r.takeUnits i.numUnits
          if okTake then
            .ok (setTask (setRes s3 r') (t1.grantResource r.id i.numUnits))
          else
            .ok s3
        else
          let t1 := t.wait
          let s1 := setTask s t1
          .ok (if s1.waitingTasks.contains t1.id then s1
               else { s1 with waitingTasks := s1.waitingTasks ++ [t1.id] })

/-- Source function bankerRequest of `Manager.py`: wrapper around `standardRequest`
that proceeds only if `isSafe` holds, otherwise makes the task wait. -/
def bankerRequest (s : MState) (t : Task) (i : Instruction) : Except Err MState :=
  if isSafe t i then
    standardRequest s t i
  else
    let t1 := t.wait
    let s1 := setTask s t1
    .ok (if s1.waitingTasks.contains t1.id then s1
         else { s1 with waitingTasks := s1.waitingTasks ++ [t1.id] })

/-- Source function bankerProcessClaims of `Manager.py`: abort the task if its initiate
names an unknown resource or claims more than the pool's total, else
record the claim. -/
def bankerProcessClaims (s : MState) (t : Task) (i : Instruction) : MState :=
  match findRes s i.resourceType with
  | none => setTask s t.abort
  | some r =>
      if r.totalUnits < i.numUnits then
        setTask s t.abort
      else
        setTask s (t.setClaims i.resourceType i.numUnits)

/-- The command dispatch of `execute` (`Manager.py` lines 198–217):
initiate claims processing under the Banker policy, policy-dependent
request handling, and the release path that moves units into the
deferred-release buffer when `numUnits ≤ busyUnits` of the resource. -/
def dispatchCmd (m : ManagerType) (s : MState) (t : Task) (i : Instruction) :
    Except Err MState :=
  if i.command == "initiate" && m == ManagerType.BANKER then
    .ok (bankerProcessClaims s t i)
  else if i.command == "request" then
    if m == ManagerType.OPTIMISTIC then standardRequest s t i
    else bankerRequest s t i
  else if i.command == "release" then
    match findRes s i.resourceType with
    | none => .error .keyError
    | some r =>
        if i.numUnits ≤ r.busyUnits then
          let s1 := placeIntoFreeBuffer s r.id i.numUnits
          match t.releaseResource r.id i.numUnits with
          | .ok t1 => .ok (setTask s1 t1)
          | .error e => .error e
        else
          .ok s
  else
    .ok s

/-- The accounting tail of `execute` (`Manager.py` lines 219–225): a task
left waiting gets its waiting time incremented; otherwise the program
counter advances (with the running-time increment modelled from the
spec's per-cycle accounting) and a newly finished task is stamped with
the clock. -/
def execTail (s : MState) (tid : Nat) : MState :=
  match findTask s tid with
  | none => s
  | some t =>
      if t.isWaiting then
        setTask s t.incWaitingTime
      else
        let t1 := t.incInstruction.incRunningTime
        let t2 := if t1.isFinished then t1.clockEndTime s.sysClock else t1
        setTask s t2

/-- Source function execute of `Manager.py`: decrement a pending delay and stop, else
dispatch the current instruction and run the accounting tail. -/
def execute (m : ManagerType) (s : MState) (tid : Nat) : Except Err MState :=
  match findTask s tid with
  | none => .ok s
  | some t =>
      match t.getCurrentInstruction with
      | none => .error .indexError
      | some i =>
          if i.delay ≠ 0 then
            .ok (setTask s t.decDelay)
          else
            match dispatchCmd m s t i with
            | .ok s1 => .ok (execTail s1 tid)
            | .error e => .error e

/-- The waiting-task pass of the clock loop (`Manager.py` lines 234–238):
service the tasks of the wait-queue snapshot in FIFO (first-blocked)
order, skipping any that are no longer active. -/
def passWaitingAux (m : ManagerType) : List Nat → MState → Except Err MState
  | [], s => .ok s
  | tid :: rest, s =>
      match findTask s tid with
      | some t =>
          if t.isActive then
            match execute m s tid with
            | .ok s' => passWaitingAux m rest s'
            | .error e => .error e
          else passWaitingAux m rest s
      | none => passWaitingAux m rest s

/-- Phase (a) of a tick: the waiting pass over the current wait queue. -/
def phaseWaiting (m : ManagerType) (s : MState) : Except Err MState :=
  passWaitingAux m s.waitingTasks s

/-- The active-task pass of the clock loop (`Manager.py` lines 240–245):
service every task that is active, not waiting, and not already serviced
this tick (the `readyTasks` marker). -/
def passActiveAux (m : ManagerType) : List Nat → MState → Except Err MState
  | [], s => .ok s
  | tid :: rest, s =>
      match findTask s tid with
      | some t =>
          if t.isActive && !t.isWaiting && !(s.readyTasks.contains tid) then
            match execute m s tid with
            | .ok s' => passActiveAux m rest s'
            | .error e => .error e
          else passActiveAux m rest s
      | none => passActiveAux m rest s

/-- Phase (b) of a tick: the active pass over the task registry in id
order. -/
def phaseActive (m : ManagerType) (s : MState) : Except Err MState :=
  passActiveAux m (s.tasks.map (fun t => t.id)) s

/-- The retry loop of `resolveDeadlock` (`Manager.py` lines 110–116):
every remaining active task whose current instruction is a request is
re-dispatched through `optimisticRequest` — a name that is not defined
anywhere in the module, so reaching such a task raises `NameError`. -/
def retryLoop (s : MState) : List Task → Except Err MState
  | [] => .ok s
  | t :: rest =>
      if t.isActive then
        match t.getCurrentInstruction with
        | none => .error .indexError
        | some i =>
            if i.command == "request" then .error .nameError
            else retryLoop s rest
      else retryLoop s rest

/-- The abort step of one `resolveDeadlock` iteration (`Manager.py` lines
101–106): reclaim the victim's held units into the deferred-release
buffer, remove it from the wait queue and abort it. -/
def abortStep (s : MState) (t : Task) : MState :=
  let s1 := t.getAllResources.foldl (fun acc p => placeIntoFreeBuffer acc p.1 p.2) s
  let s2 := { s1 with waitingTasks := s1.waitingTasks.filter (fun x => x != t.id) }
  setTask s2 t.abort

/-- The while-loop of `resolveDeadlock`, with fuel (each iteration aborts
one active task, so `tasks.length + 1` steps always suffice). -/
def resolveGo (fuel : Nat) (s : MState) : Except Err MState :=
  match fuel with
  | 0 => .ok s
  | fuel' + 1 =>
      if isDeadlocked s then
        match getLowestDeadlockedTask s with
        | none => .ok s
        | some t =>
            match cleanFreeBuffer (abortStep s t) with
            | .ok s2 =>
                match retryLoop s2 s2.tasks with
                | .ok s3 => resolveGo fuel' s3
                | .error e => .error e
            | .error e => .error e
      else .ok s

/-- Source function resolveDeadlock of `Manager.py`: while deadlocked, abort the lowest
numbered deadlocked task, free its resources, flush the buffer and retry
the remaining requests. -/
def resolveDeadlock (s : MState) : Except Err MState :=
  resolveGo (s.tasks.length + 1) s

/-- One tick of the clock loop (`Manager.py` lines 232–254), as the
sequence of phases: (a) waiting pass, (b) active pass, (c) reset of the
per-tick serviced marker, (d) deadlock resolution under the optimistic
policy, (e) flush of the deferred-release buffer, (f) clock advance. -/
def stepTick (m : ManagerType) (s : MState) : Except Err MState :=
  match phaseWaiting m s with
  | .error e => .error e
  | .ok s1 =>
      match phaseActive m s1 with
      | .error e => .error e
      | .ok s2 =>
          match
            (if m == ManagerType.OPTIMISTIC &&
                isDeadlocked { s2 with readyTasks := ([] : List Nat) } then
              resolveDeadlock { s2 with readyTasks := ([] : List Nat) }
            else .ok { s2 with readyTasks := ([] : List Nat) }) with
          | .error e => .error e
          | .ok s4 =>
              match cleanFreeBuffer s4 with
              | .error e => .error e
              | .ok s5 => .ok { s5 with sysClock := s5.sysClock + 1 }

/-- Source function run of `Manager.py`: the clock loop, with fuel bounding the number
of ticks (the Python loop can run forever; `.ok none` reports that the
fuel ran out before the run finished). -/
def run (m : ManagerType) : Nat → MState → Except Err (Option MState)
  | 0, _ => .ok none
  | fuel + 1, s =>
      if isFinished s then .ok (some s)
      else
        match phaseWaiting m s with
        | .error e => .error e
        | .ok s1 =>
            match phaseActive m s1 with
            | .error e => .error e
            | .ok s2 =>
                let s3 := { s2 with readyTasks := ([] : List Nat) }
                match
                  (if m == ManagerType.OPTIMISTIC && isDeadlocked s3 then resolveDeadlock s3
                   else .ok s3) with
                | .error e => .error e
                | .ok s4 =>
                    match cleanFreeBuffer s4 with
                    | .error e => .error e
                    | .ok s5 => run m fuel { s5 with sysClock := s5.sysClock + 1 }

/-- Modelled from the spec: one step of the Banker's safety scan
(section 4.3) — find a pending task whose remaining claim
`claim − held` fits in `work` for every resource. -/
def scanFind (rs : List Resource) (work : List (Nat × Nat)) (pending : List Task) :
    Option Task :=
  pending.find? (fun t =>
    rs.all (fun r => lookupA t.claims r.id - lookupA t.held r.id ≤ lookupA work r.id))

/-- Modelled from the spec: the Banker's safety scan loop (section 4.3) —
repeatedly mark a finishable task and add its held units to `work`; the
state is safe iff every pending task can be marked. -/
def scanLoop (rs : List Resource) : Nat → List (Nat × Nat) → List Task → Bool
  | 0, _, pending => pending.isEmpty
  | fuel + 1, work, pending =>
      match scanFind rs work pending with
      | none => pending.isEmpty
      | some t =>
          let work' := t.held.foldl (fun acc p => insertAdd acc p.1 p.2) work
          scanLoop rs fuel work' (pending.filter (fun u => u.id != t.id))

/-- Modelled from the spec: the full Banker's safety check (section 4.3),
absent from the source where `isSafe` is a constant-`True` stub: a state
is safe iff a completion sequence exists for all active tasks given the
current availability. -/
def bankerSafety (s : MState) : Bool :=
  let pending := s.tasks.filter (fun t => t.isActive)
  let work := s.resources.map (fun r => (r.id, r.getNumAvailable))
  scanLoop s.resources pending.length work pending

/-- The sum of a resource's units held across all tasks. -/
def heldSum (s : MState) (rid : Nat) : Nat :=
  (s.tasks.map (fun t => lookupA t.held rid)).sum

/-- A resource's busy units, by id (0 if absent). -/
def busyOf (s : MState) (rid : Nat) : Nat :=
  match findRes s rid with
  | some r => r.busyUnits
  | none => 0

/-- A task's program counter, by id. -/
def pcOf (s : MState) (tid : Nat) : Option Nat :=
  (findTask s tid).map (fun t => t.pc)

/-- Everything of the engine state except the deferred-release buffer
(used to state that the service passes never read the buffer). -/
def MState.core (s : MState) :
    List Task × List Resource × List Nat × List Nat × Nat :=
  (s.tasks, s.resources, s.waitingTasks, s.readyTasks, s.sysClock)

/-- A fresh task as built by `parseInputData`: program counter 0, Active,
not waiting, holding nothing, no claims, zeroed counters. -/
def mkTask (i : Nat) (ins : List Instruction) : Task :=
  ⟨i, ins, 0, Status.active, false, [], [], 0, 0, none⟩

/-- The two-task cross-request scenario: two resources of one unit each;
each task initiates, acquires its own resource, then requests the one
the other holds, with zero delays and no releases. -/
def S3 : MState :=
  { tasks := [mkTask 1 [⟨"initiate",1,0,1,1⟩, ⟨"request",1,0,1,1⟩, ⟨"request",1,0,2,1⟩],
              mkTask 2 [⟨"initiate",2,0,2,1⟩, ⟨"request",2,0,2,1⟩, ⟨"request",2,0,1,1⟩]],
    resources := [⟨1,1,0⟩, ⟨2,1,0⟩],
    waitingTasks := [], readyTasks := [], freeBuffer := [], sysClock := 0 }

/-- A Banker-policy trace leading to an unsafe grant: one resource of two
units; both tasks declare a claim of 2, then each requests one unit
twice. -/
def B0 : MState :=
  { tasks := [mkTask 1 [⟨"initiate",1,0,1,2⟩, ⟨"request",1,0,1,1⟩, ⟨"request",1,0,1,1⟩],
              mkTask 2 [⟨"initiate",2,0,1,2⟩, ⟨"request",2,0,1,1⟩, ⟨"request",2,0,1,1⟩]],
    resources := [⟨1,2,0⟩],
    waitingTasks := [], readyTasks := [], freeBuffer := [], sysClock := 0 }

/-- A Banker-policy trace whose initiate comes after a granted request
and claims more than the pool: the abort in `bankerProcessClaims` drops
the task's held unit without returning it to the pool. -/
def F0 : MState :=
  { tasks := [mkTask 1 [⟨"request",1,0,1,1⟩, ⟨"initiate",1,0,1,5⟩, ⟨"request",1,0,1,1⟩]],
    resources := [⟨1,2,0⟩],
    waitingTasks := [], readyTasks := [], freeBuffer := [], sysClock := 0 }

/-- A deadlocked state with a single task: it waits on an impossible
two-unit request against a one-unit resource while holding the single
unit of resource 2. -/
def D0 : MState :=
  { tasks := [{ mkTask 1 [⟨"request",1,0,1,2⟩, ⟨"request",1,0,1,2⟩] with
                waiting := true, held := [(2,1)] }],
    resources := [⟨1,1,0⟩, ⟨2,1,1⟩],
    waitingTasks := [1], readyTasks := [], freeBuffer := [], sysClock := 5 }

/-- The victim task of the deadlocked state `W4` (task 1, holding the
unit of resource 1 and waiting on resource 2). -/
def W4victim : Task :=
  { mkTask 1 [⟨"request",1,0,2,1⟩, ⟨"request",1,0,2,1⟩] with
    waiting := true, held := [(1,1)] }

/-- A deadlocked two-task state: each task holds one resource and waits
on the other. -/
def W4 : MState :=
  { tasks := [W4victim,
              { mkTask 2 [⟨"request",2,0,1,1⟩, ⟨"request",2,0,1,1⟩] with
                waiting := true, held := [(2,1)] }],
    resources := [⟨1,1,1⟩, ⟨2,1,1⟩],
    waitingTasks := [1,2], readyTasks := [], freeBuffer := [], sysClock := 2 }

/-- The state reached inside `resolveDeadlock` on `W4` after aborting the
victim and flushing the buffer. -/
def W4s2 : MState :=
  match cleanFreeBuffer (abortStep W4 W4victim) with
  | .ok s => s
  | .error _ => W4

/-- The task of state `E7`: it holds nothing and dispatches a release of
one unit. -/
def E7task : Task := mkTask 1 [⟨"release",1,0,1,1⟩, ⟨"release",1,0,1,1⟩]

/-- A state whose task dispatches a release of one unit of a resource
with no busy units while holding none itself. -/
def E7 : MState :=
  { tasks := [E7task],
    resources := [⟨1,1,0⟩],
    waitingTasks := [], readyTasks := [], freeBuffer := [], sysClock := 0 }

/-- A state whose task's current instruction still has a think-time delay
of 2. -/
def E9 : MState :=
  { tasks := [mkTask 1 [⟨"request",1,2,1,1⟩, ⟨"request",1,0,1,1⟩]],
    resources := [⟨1,1,0⟩],
    waitingTasks := [], readyTasks := [], freeBuffer := [], sysClock := 0 }

/-- The task of state `W6`: it holds the single unit of resource 1 and
dispatches a release of that unit. -/
def W6task : Task :=
  { mkTask 1 [⟨"release",1,0,1,1⟩, ⟨"release",1,0,1,1⟩] with held := [(1,1)] }

/-- A consistent state for a well-formed release: the task holds the one
busy unit of resource 1. -/
def W6 : MState :=
  { tasks := [W6task],
    resources := [⟨1,1,1⟩],
    waitingTasks := [], readyTasks := [], freeBuffer := [], sysClock := 0 }

/-- A state whose task dispatches an immediately satisfiable request
(used to witness the per-cycle accounting). -/
def W9 : MState :=
  { tasks := [mkTask 1 [⟨"request",1,0,1,1⟩, ⟨"request",1,0,1,1⟩]],
    resources := [⟨1,1,0⟩],
    waitingTasks := [], readyTasks := [], freeBuffer := [], sysClock := 0 }

/-- The task of `W9` before dispatch. -/
def W9task : Task := mkTask 1 [⟨"request",1,0,1,1⟩, ⟨"request",1,0,1,1⟩]

/-- The state after dispatching `W9`'s request. -/
def W9after : MState :=
  match execute ManagerType.OPTIMISTIC W9 1 with
  | .ok s => s
  | .error _ => W9

/-- The task of `W9` after dispatch. -/
def W9taskAfter : Task :=
  match findTask W9after 1 with
  | some t => t
  | none => W9task

/-! ## Helper lemmas -/

@[simp] theorem Task.held_incWaitingTime (t : Task) : t.incWaitingTime.held = t.held := rfl

@[simp] theorem Task.id_incWaitingTime (t : Task) : t.incWaitingTime.id = t.id := rfl

@[simp] theorem Task.waiting_incWaitingTime (t : Task) : t.incWaitingTime.waiting = t.waiting := rfl

@[simp] theorem Task.runningTime_incWaitingTime (t : Task) :
    t.incWaitingTime.runningTime = t.runningTime := rfl

@[simp] theorem Task.waitingTime_incWaitingTime (t : Task) :
    t.incWaitingTime.waitingTime = t.waitingTime + 1 := rfl

@[simp] theorem Task.pc_incWaitingTime (t : Task) : t.incWaitingTime.pc = t.pc := rfl

@[simp] theorem Task.held_incRunningTime (t : Task) : t.incRunningTime.held = t.held := rfl

@[simp] theorem Task.id_incRunningTime (t : Task) : t.incRunningTime.id = t.id := rfl

@[simp] theorem Task.waiting_incRunningTime (t : Task) : t.incRunningTime.waiting = t.waiting := rfl

@[simp] theorem Task.runningTime_incRunningTime (t : Task) :
    t.incRunningTime.runningTime = t.runningTime + 1 := rfl

@[simp] theorem Task.waitingTime_incRunningTime (t : Task) :
    t.incRunningTime.waitingTime = t.waitingTime := rfl

@[simp] theorem Task.pc_incRunningTime (t : Task) : t.incRunningTime.pc = t.pc := rfl

@[simp] theorem Task.status_incRunningTime (t : Task) : t.incRunningTime.status = t.status := rfl

@[simp] theorem Task.held_incInstruction (t : Task) : t.incInstruction.held = t.held := by
  simp only [Task.incInstruction]; split <;> rfl

@[simp] theorem Task.id_incInstruction (t : Task) : t.incInstruction.id = t.id := by
  simp only [Task.incInstruction]; split <;> rfl

@[simp] theorem Task.waiting_incInstruction (t : Task) :
    t.incInstruction.waiting = t.waiting := by
  simp only [Task.incInstruction]; split <;> rfl

@[simp] theorem Task.runningTime_incInstruction (t : Task) :
    t.incInstruction.runningTime = t.runningTime := by
  simp only [Task.incInstruction]; split <;> rfl

@[simp] theorem Task.waitingTime_incInstruction (t : Task) :
    t.incInstruction.waitingTime = t.waitingTime := by
  simp only [Task.incInstruction]; split <;> rfl

@[simp] theorem Task.pc_incInstruction (t : Task) : t.incInstruction.pc = t.pc + 1 := by
  simp only [Task.incInstruction]; split <;> rfl

theorem Task.status_incInstruction_ne_aborted (t : Task) (h : t.status = Status.active) :
    t.incInstruction.status ≠ Status.aborted := by
  simp only [Task.incInstruction]
  split
  · intro hc; cases hc
  · simp only [h]; intro hc; cases hc

@[simp] theorem Task.held_clockEndTime (t : Task) (c : Nat) : (t.clockEndTime c).held = t.held := rfl

@[simp] theorem Task.id_clockEndTime (t : Task) (c : Nat) : (t.clockEndTime c).id = t.id := rfl

@[simp] theorem Task.waiting_clockEndTime (t : Task) (c : Nat) :
    (t.clockEndTime c).waiting = t.waiting := rfl

@[simp] theorem Task.runningTime_clockEndTime (t : Task) (c : Nat) :
    (t.clockEndTime c).runningTime = t.runningTime := rfl

@[simp] theorem Task.waitingTime_clockEndTime (t : Task) (c : Nat) :
    (t.clockEndTime c).waitingTime = t.waitingTime := rfl

@[simp] theorem Task.pc_clockEndTime (t : Task) (c : Nat) : (t.clockEndTime c).pc = t.pc := rfl

@[simp] theorem Task.status_clockEndTime (t : Task) (c : Nat) :
    (t.clockEndTime c).status = t.status := rfl

/-- Find-and-replace on the task registry: replacing the entries whose id
matches a found task's id makes the lookup return the replacement. -/
theorem find?_map_replace (l : List Task) (tid : Nat) (t t' : Task)
    (h : l.find? (fun u => u.id == tid) = some t) (hid : t'.id = t.id) :
    (l.map (fun u => if u.id == t'.id then t' else u)).find? (fun u => u.id == tid) =
      some t' := by
  have hb := List.find?_some h
  have htid : t.id = tid := eq_of_beq hb
  induction l with
  | nil => cases h
  | cons u rest ih =>
      cases hu : (u.id == tid) with
      | true =>
          have hut : u = t := by
            rw [List.find?_cons, hu] at h
            cases h; rfl
          have h1 : (u.id == t'.id) = true := by
            rw [hid, hut]; exact beq_self_eq_true t.id
          have h2 : (t'.id == tid) = true := by
            rw [hid, htid]; exact beq_self_eq_true tid
          rw [List.map_cons, if_pos h1, List.find?_cons, h2]
      | false =>
          rw [List.find?_cons, hu] at h
          have h1 : (u.id == t'.id) = false := by rw [hid, htid]; exact hu
          rw [List.map_cons, if_neg (by simp [h1]), List.find?_cons, hu]
          exact ih h

/-- Looking up a task yields its id and membership. -/
theorem findTask_spec (s : MState) (tid : Nat) (t : Task) (h : findTask s tid = some t) :
    t.id = tid ∧ t ∈ s.tasks := by
  have hb := List.find?_some h
  exact ⟨eq_of_beq hb, List.mem_of_find?_eq_some h⟩

/-- Looking a resource up yields its id. -/
theorem findRes_spec (s : MState) (rid : Nat) (r : Resource) (h : findRes s rid = some r) :
    r.id = rid := by
  have hb := List.find?_some h
  exact eq_of_beq hb

/-- Storing a task with the same id as a found one makes the lookup
return the stored task. -/
theorem findTask_setTask (s : MState) (tid : Nat) (t t' : Task)
    (h : findTask s tid = some t) (hid : t'.id = t.id) :
    findTask (setTask s t') tid = some t' :=
  find?_map_replace s.tasks tid t t' h hid

@[simp] theorem setTask_freeBuffer (s : MState) (t : Task) :
    (setTask s t).freeBuffer = s.freeBuffer := rfl

@[simp] theorem setTask_resources (s : MState) (t : Task) :
    (setTask s t).resources = s.resources := rfl

@[simp] theorem setTask_waitingTasks (s : MState) (t : Task) :
    (setTask s t).waitingTasks = s.waitingTasks := rfl

@[simp] theorem setTask_sysClock (s : MState) (t : Task) :
    (setTask s t).sysClock = s.sysClock := rfl

@[simp] theorem setRes_freeBuffer (s : MState) (r : Resource) :
    (setRes s r).freeBuffer = s.freeBuffer := rfl

@[simp] theorem setRes_tasks (s : MState) (r : Resource) :
    (setRes s r).tasks = s.tasks := rfl

@[simp] theorem placeIntoFreeBuffer_tasks (s : MState) (rid n : Nat) :
    (placeIntoFreeBuffer s rid n).tasks = s.tasks := rfl

@[simp] theorem placeIntoFreeBuffer_resources (s : MState) (rid n : Nat) :
    (placeIntoFreeBuffer s rid n).resources = s.resources := rfl

@[simp] theorem findTask_updateReady (s : MState) (x : List Nat) (tid : Nat) :
    findTask { s with readyTasks := x } tid = findTask s tid := rfl

@[simp] theorem findTask_updateWaiting (s : MState) (x : List Nat) (tid : Nat) :
    findTask { s with waitingTasks := x } tid = findTask s tid := rfl

@[simp] theorem findTask_setRes (s : MState) (r : Resource) (tid : Nat) :
    findTask (setRes s r) tid = findTask s tid := rfl

@[simp] theorem findTask_place (s : MState) (rid n tid : Nat) :
    findTask (placeIntoFreeBuffer s rid n) tid = findTask s tid := rfl

@[simp] theorem Task.id_abort (t : Task) : t.abort.id = t.id := rfl

@[simp] theorem Task.runningTime_abort (t : Task) : t.abort.runningTime = t.runningTime := rfl

@[simp] theorem Task.waitingTime_abort (t : Task) : t.abort.waitingTime = t.waitingTime := rfl

@[simp] theorem Task.id_setClaims (t : Task) (rid n : Nat) :
    (t.setClaims rid n).id = t.id := rfl

@[simp] theorem Task.runningTime_setClaims (t : Task) (rid n : Nat) :
    (t.setClaims rid n).runningTime = t.runningTime := rfl

@[simp] theorem Task.waitingTime_setClaims (t : Task) (rid n : Nat) :
    (t.setClaims rid n).waitingTime = t.waitingTime := rfl

@[simp] theorem Task.id_decDelay (t : Task) : t.decDelay.id = t.id := by
  simp only [Task.decDelay]; split <;> rfl

@[simp] theorem Task.runningTime_decDelay (t : Task) :
    t.decDelay.runningTime = t.runningTime := by
  simp only [Task.decDelay]; split <;> rfl

@[simp] theorem Task.waitingTime_decDelay (t : Task) :
    t.decDelay.waitingTime = t.waitingTime := by
  simp only [Task.decDelay]; split <;> rfl

@[simp] theorem Task.id_stopWaiting (t : Task) : t.stopWaiting.id = t.id := rfl

@[simp] theorem Task.runningTime_stopWaiting (t : Task) :
    t.stopWaiting.runningTime = t.runningTime := rfl

@[simp] theorem Task.waitingTime_stopWaiting (t : Task) :
    t.stopWaiting.waitingTime = t.waitingTime := rfl

@[simp] theorem Task.held_stopWaiting (t : Task) : t.stopWaiting.held = t.held := rfl

@[simp] theorem Task.id_wait (t : Task) : t.wait.id = t.id := rfl

@[simp] theorem Task.runningTime_wait (t : Task) : t.wait.runningTime = t.runningTime := rfl

@[simp] theorem Task.waitingTime_wait (t : Task) : t.wait.waitingTime = t.waitingTime := rfl

@[simp] theorem Task.held_wait (t : Task) : t.wait.held = t.held := rfl

@[simp] theorem Task.id_grantResource (t : Task) (rid n : Nat) :
    (t.grantResource rid n).id = t.id := rfl

@[simp] theorem Task.runningTime_grantResource (t : Task) (rid n : Nat) :
    (t.grantResource rid n).runningTime = t.runningTime := rfl

@[simp] theorem Task.waitingTime_grantResource (t : Task) (rid n : Nat) :
    (t.grantResource rid n).waitingTime = t.waitingTime := rfl

/-- Inversion for a successful release on the task. -/
theorem Task.releaseResource_ok (t : Task) (rid n : Nat) (t1 : Task)
    (h : t.releaseResource rid n = .ok t1) :
    t1 = { t with held := subA t.held rid n } ∧ n ≤ lookupA t.held rid := by
  unfold Task.releaseResource at h
  split at h
  · cases h; exact ⟨rfl, by assumption⟩
  · cases h

/-! ## Theorems -/

/-- C1: the conservative engine is claimed to grant a request only when
the post-grant state passes the Banker's safety scan.  The code's
`isSafe` is a constant-`True` stub, so on the trace `B0` (one resource of
two units, both tasks claiming 2) the second tick grants task 2's request
even though the resulting state — both tasks holding one unit, two units
busy — fails the safety scan (`bankerSafety` is `false`): an unsafe grant
occurs. -/
theorem bankerStub_grants_unsafe :
    (stepTick ManagerType.BANKER B0 >>= stepTick ManagerType.BANKER).map
        (fun s => (bankerSafety s, heldSum s 1, busyOf s 1)) =
      .ok (false, 2, 2) := rfl

/-- C2 counterexample: units are claimed to be flushed into availability
only at the tick boundary, but `resolveDeadlock` — phase (d) of a tick,
before the boundary flush of phase (e) — already flushes the buffer: on
the deadlocked state `D0` (whose task holds the busy unit of resource 2)
deadlock resolution alone brings resource 2's busy count from 1 to 0 and
leaves the buffer empty, mid-tick. -/
theorem deadlockResolution_flushes_midTick :
    (resolveDeadlock D0).map (fun s => (busyOf s 2, s.freeBuffer)) =
        .ok (0, []) ∧
      busyOf D0 2 = 1 ∧ isDeadlocked D0 = true := ⟨rfl, rfl, rfl⟩

/-- C3: the cross-request scenario is claimed to end with task 1 Aborted
and task 2 Finished; instead the run raises `NameError`, because after
aborting task 1 the deadlock-resolution retry calls the undefined name
`optimisticRequest` on task 2's pending request. -/
theorem crossRequest_scenario_raises_nameError :
    run ManagerType.OPTIMISTIC 10 S3 = .error .nameError := rfl

/-- C5: on the Banker trace `F0` the task acquires one unit and then
dispatches an infeasible initiate (claim 5 on a two-unit pool);
`bankerProcessClaims` aborts it without returning its held unit, so at
the next tick boundary resource 1 has `busyUnits = 1` while the sum of
held units across tasks is 0 — the claimed invariant
`busyUnits = Σ heldUnits` is broken by the code. -/
theorem claimAbort_breaks_held_invariant :
    (stepTick ManagerType.BANKER F0 >>= stepTick ManagerType.BANKER).map
        (fun s => (busyOf s 1, heldSum s 1)) = .ok (1, 0) := rfl

/-- C7 counterexample: a release naming more units than held is claimed
to leave the program counter unchanged for a retry; on `E7` (task holds
nothing, resource has no busy units, release of 1) the dispatch ignores
the release but the program counter still advances from 0 to 1 — the
instruction is skipped, not retried. -/
theorem overRelease_advances_pc :
    (execute ManagerType.OPTIMISTIC E7 1).map
        (fun s => (pcOf s 1, s.freeBuffer, busyOf s 1)) =
      .ok (some 1, [], 0) ∧ pcOf E7 1 = some 0 := ⟨rfl, rfl⟩

/-- C9 counterexample: a task whose current instruction is still delaying
is claimed to count as running for the cycle; on `E9` (delay 2) the
dispatch decrements the delay to 1 but increments neither `runningTime`
nor `waitingTime`, so no counter at all is incremented that cycle. -/
theorem delaying_task_counts_neither :
    (execute ManagerType.OPTIMISTIC E9 1).map
        (fun s => (findTask s 1).map
          (fun t => (t.runningTime, t.waitingTime,
                     t.getCurrentInstruction.map (fun i => i.delay)))) =
      .ok (some (0, 0, some 1)) := rfl

/-- C8: because `isSafe` returns `True` for every input, `bankerRequest`
performs exactly the same state change as `standardRequest` on every
state, task and instruction: the conservative request handling is
behaviorally identical to the optimistic one. -/
theorem bankerRequest_eq_standardRequest :
    ∀ (s : MState) (t : Task) (i : Instruction),
      bankerRequest s t i = standardRequest s t i :=
  fun _ _ _ => rfl

/-- The retry loop of deadlock resolution errors at the first remaining
active task holding a request, because it calls the undefined
`optimisticRequest`. -/
theorem retryLoop_nameError (s : MState) (l : List Task)
    (hall : ∀ u ∈ l, u.isActive = true → u.getCurrentInstruction ≠ none)
    (hex : ∃ u ∈ l, u.isActive = true ∧
             ∃ i, u.getCurrentInstruction = some i ∧ i.command = "request") :
    retryLoop s l = .error .nameError := by
  induction l with
  | nil => rcases hex with ⟨u, hu, _⟩; cases hu
  | cons t rest ih =>
      have hallrest : ∀ u ∈ rest, u.isActive = true → u.getCurrentInstruction ≠ none :=
        fun u hu => hall u (List.mem_cons_of_mem t hu)
      cases ht : t.isActive with
      | false =>
          have hexrest : ∃ u ∈ rest, u.isActive = true ∧
              ∃ i, u.getCurrentInstruction = some i ∧ i.command = "request" := by
            rcases hex with ⟨u, hu, hua, j, hj, hcmd⟩
            rcases List.mem_cons.mp hu with rfl | hu'
            · rw [hua] at ht; cases ht
            · exact ⟨u, hu', hua, j, hj, hcmd⟩
          simp only [retryLoop, ht, Bool.false_eq_true, if_false]
          exact ih hallrest hexrest
      | true =>
          cases hcur : t.getCurrentInstruction with
          | none => exact absurd hcur (hall t (List.mem_cons_self t rest) ht)
          | some i =>
              cases hreq : (i.command == "request") with
              | true => simp [retryLoop, ht, hcur, hreq]
              | false =>
                  have hexrest : ∃ u ∈ rest, u.isActive = true ∧
                      ∃ i, u.getCurrentInstruction = some i ∧ i.command = "request" := by
                    rcases hex with ⟨u, hu, hua, j, hj, hcmd⟩
                    rcases List.mem_cons.mp hu with rfl | hu'
                    · rw [hcur] at hj; cases hj
                      rw [hcmd] at hreq; simp at hreq
                    · exact ⟨u, hu', hua, j, hj, hcmd⟩
                  simp only [retryLoop, ht, if_true, hcur, hreq, Bool.false_eq_true, if_false]
                  exact ih hallrest hexrest

/-- C4: for every deadlocked state in which, after aborting the
lowest-id waiting task and flushing the buffer, some remaining active
task's current instruction is a request (and no active task is past its
program), `resolveDeadlock` raises `NameError` — the retry step calls
`optimisticRequest`, a name defined nowhere in the module, so resolution
never completes. -/
theorem resolveDeadlock_retry_nameError (s : MState) (t : Task) (s2 : MState)
    (h1 : isDeadlocked s = true)
    (h2 : getLowestDeadlockedTask s = some t)
    (h3 : cleanFreeBuffer (abortStep s t) = .ok s2)
    (h4 : ∀ u ∈ s2.tasks, u.isActive = true → u.getCurrentInstruction ≠ none)
    (h5 : ∃ u ∈ s2.tasks, u.isActive = true ∧
            ∃ i, u.getCurrentInstruction = some i ∧ i.command = "request") :
    resolveDeadlock s = .error .nameError := by
  unfold resolveDeadlock
  simp only [resolveGo, h1, if_pos, h2, h3]
  rw [retryLoop_nameError s2 s2.tasks h4 h5]

/-- C4 witness: on the concrete deadlocked state `W4` (two tasks, each
holding one resource and requesting the other), deadlock resolution
raises `NameError`. -/
theorem resolveDeadlock_retry_nameError_witness :
    resolveDeadlock W4 = .error .nameError :=
  resolveDeadlock_retry_nameError W4 W4victim W4s2 rfl rfl rfl (by decide) (by decide)

/-- C10: in every tick of the clock loop the phases run in source order —
(a) waiting pass in FIFO wait-queue order, (b) active pass over tasks not
already serviced, (c) reset of the per-tick serviced marker, (d) deadlock
resolution under the optimistic policy when deadlocked, (e) flush of the
deferred-release buffer, (f) clock advance (all captured by `stepTick`) —
and the loop returns exactly when every task is Finished or Aborted. -/
theorem run_phases_in_order (m : ManagerType) (fuel : Nat) (s : MState) :
    run m (fuel + 1) s =
        (if isFinished s then .ok (some s) else stepTick m s >>= run m fuel) ∧
      (isFinished s = true ↔
        ∀ t ∈ s.tasks, t.status = Status.finished ∨ t.status = Status.aborted) := by
  constructor
  · simp only [run]
    cases hf : isFinished s with
    | true => simp [hf]
    | false =>
        simp only [Bool.false_eq_true, if_false]
        simp only [bind, Except.bind]
        cases h1 : phaseWaiting m s with
        | error e => simp only [stepTick, h1]
        | ok s1 =>
            simp only [stepTick, h1]
            cases h2 : phaseActive m s1 with
            | error e => rfl
            | ok s2 =>
                simp only []
                cases h4 : (if m == ManagerType.OPTIMISTIC &&
                    isDeadlocked { s2 with readyTasks := ([] : List Nat) } then
                      resolveDeadlock { s2 with readyTasks := ([] : List Nat) }
                    else .ok { s2 with readyTasks := ([] : List Nat) }) with
                | error e => rfl
                | ok s4 =>
                    simp only []
                    cases h5 : cleanFreeBuffer s4 with
                    | error e => rfl
                    | ok s5 => rfl
  · simp only [isFinished, List.all_eq_true]
    constructor
    · intro h t ht
      have hh := h t ht
      simp only [Task.isActive, Bool.not_eq_true'] at hh
      cases hstat : t.status with
      | active => rw [hstat] at hh; exact absurd hh (by decide)
      | finished => exact Or.inl rfl
      | aborted => exact Or.inr rfl
    · intro h t ht
      rcases h t ht with h1 | h1 <;> simp only [Task.isActive, h1] <;> decide

/-- C7 (amended): a release naming more units than the resource's busy
count is ignored — no units move, the task is not aborted — but the
program counter still advances, so the instruction is skipped rather than
retried. -/
theorem overRelease_skips_instruction (m : ManagerType) (s : MState) (tid : Nat)
    (t : Task) (i : Instruction) (r : Resource)
    (h1 : findTask s tid = some t) (h2 : t.getCurrentInstruction = some i)
    (h3 : i.command = "release") (h4 : i.delay = 0)
    (h5 : findRes s i.resourceType = some r) (h6 : r.busyUnits < i.numUnits)
    (h7 : t.waiting = false) (h8 : t.status = Status.active) :
    ∃ s' t', execute m s tid = .ok s' ∧ findTask s' tid = some t' ∧
      t'.pc = t.pc + 1 ∧ t'.status ≠ Status.aborted ∧ t'.held = t.held ∧
      s'.freeBuffer = s.freeBuffer ∧ s'.resources = s.resources := by
  have hred : execute m s tid = .ok (execTail s tid) := by
    simp [execute, h1, h2, h4, dispatchCmd, h3, h5, Nat.not_le.mpr h6]
  have hstat2 : (t.incInstruction.incRunningTime).status ≠ Status.aborted := by
    rw [Task.status_incRunningTime]
    exact Task.status_incInstruction_ne_aborted t h8
  cases hfin : (t.incInstruction.incRunningTime).isFinished with
  | true =>
      have htail : execTail s tid =
          setTask s ((t.incInstruction.incRunningTime).clockEndTime s.sysClock) := by
        simp [execTail, h1, Task.isWaiting, h7, hfin]
      refine ⟨execTail s tid, (t.incInstruction.incRunningTime).clockEndTime s.sysClock,
        hred, ?_, by simp, ?_, by simp, by rw [htail]; rfl, by rw [htail]; rfl⟩
      · rw [htail]
        exact findTask_setTask s tid t _ h1 (by simp)
      · rw [Task.status_clockEndTime]
        exact hstat2
  | false =>
      have htail : execTail s tid = setTask s (t.incInstruction.incRunningTime) := by
        simp [execTail, h1, Task.isWaiting, h7, hfin]
      refine ⟨execTail s tid, t.incInstruction.incRunningTime,
        hred, ?_, by simp, hstat2, by simp, by rw [htail]; rfl, by rw [htail]; rfl⟩
      rw [htail]
      exact findTask_setTask s tid t _ h1 (by simp)

/-- C7 witness: the amended behavior at the concrete state `E7`: the
over-release is ignored (buffer and resources untouched), the task is not
aborted, and its program counter advances. -/
theorem overRelease_skips_instruction_witness :
    ∃ s' t', execute ManagerType.OPTIMISTIC E7 1 = .ok s' ∧ findTask s' 1 = some t' ∧
      t'.pc = E7task.pc + 1 ∧ t'.status ≠ Status.aborted ∧ t'.held = E7task.held ∧
      s'.freeBuffer = E7.freeBuffer ∧ s'.resources = E7.resources :=
  overRelease_skips_instruction ManagerType.OPTIMISTIC E7 1 E7task
    ⟨"release", 1, 0, 1, 1⟩ ⟨1, 1, 0⟩ rfl rfl rfl rfl rfl (by decide) rfl rfl

/-- The command dispatch never touches the counters of the dispatched
task: after a successful `dispatchCmd` the task is still found under its
id, with `runningTime` and `waitingTime` unchanged. -/
theorem dispatchCmd_counters (m : ManagerType) (s : MState) (tid : Nat)
    (t : Task) (i : Instruction) (s1 : MState)
    (h1 : findTask s tid = some t)
    (hd : dispatchCmd m s t i = .ok s1) :
    ∃ u, findTask s1 tid = some u ∧ u.id = t.id ∧
      u.runningTime = t.runningTime ∧ u.waitingTime = t.waitingTime := by
  have hstd : ∀ s1, standardRequest s t i = .ok s1 →
      ∃ u, findTask s1 tid = some u ∧ u.id = t.id ∧
        u.runningTime = t.runningTime ∧ u.waitingTime = t.waitingTime := by
    intro s1 hs
    unfold standardRequest at hs
    by_cases hdel : i.delay ≠ 0
    · rw [if_pos hdel] at hs
      cases hs
      exact ⟨t.decDelay, findTask_setTask s tid t _ h1 (by simp), by simp, by simp, by simp⟩
    · rw [if_neg hdel] at hs
      cases hres : findRes s i.resourceType with
      | none => simp only [hres] at hs; cases hs
      | some r =>
          simp only [hres] at hs
          by_cases havail : i.numUnits ≤ r.getNumAvailable
          · rw [if_pos havail] at hs
            simp only [Resource.takeUnits, if_pos havail, if_true] at hs
            cases hs
            refine ⟨t.stopWaiting.grantResource r.id i.numUnits, ?_, by simp, by simp, by simp⟩
            apply findTask_setTask _ tid t.stopWaiting _ _ (by simp)
            show findTask (setRes _ _) tid = some t.stopWaiting
            rw [findTask_setRes]
            split
            · exact findTask_setTask s tid t _ h1 (by simp)
            · exact findTask_setTask s tid t _ h1 (by simp)
          · rw [if_neg havail] at hs
            cases hs
            refine ⟨t.wait, ?_, by simp, by simp, by simp⟩
            split
            · exact findTask_setTask s tid t _ h1 (by simp)
            · exact findTask_setTask s tid t _ h1 (by simp)
  unfold dispatchCmd at hd
  split at hd
  · cases hd
    unfold bankerProcessClaims
    split
    · exact ⟨t.abort, findTask_setTask s tid t _ h1 (by simp), by simp, by simp, by simp⟩
    · split
      · exact ⟨t.abort, findTask_setTask s tid t _ h1 (by simp), by simp, by simp, by simp⟩
      · exact ⟨t.setClaims i.resourceType i.numUnits,
          findTask_setTask s tid t _ h1 (by simp), by simp, by simp, by simp⟩
  · split at hd
    · split at hd
      · exact hstd s1 hd
      · simp only [bankerRequest, isSafe, eq_self_iff_true, if_true] at hd
        exact hstd s1 hd
    · split at hd
      · cases hres : findRes s i.resourceType with
        | none => simp only [hres] at hd; cases hd
        | some r =>
            simp only [hres] at hd
            by_cases hbusy : i.numUnits ≤ r.busyUnits
            · rw [if_pos hbusy] at hd
              cases hrel : t.releaseResource r.id i.numUnits with
              | ok t1 =>
                  simp only [hrel] at hd
                  cases hd
                  have hinv := (Task.releaseResource_ok t _ _ t1 hrel).1
                  refine ⟨t1, ?_, ?_, ?_, ?_⟩
                  · exact findTask_setTask _ tid t _ h1 (by rw [hinv])
                  · rw [hinv]
                  · rw [hinv]
                  · rw [hinv]
              | error e => simp only [hrel] at hd; cases hd
            · rw [if_neg hbusy] at hd
              cases hd
              exact ⟨t, h1, rfl, rfl, rfl⟩
      · cases hd
        exact ⟨t, h1, rfl, rfl, rfl⟩

/-- C9 (amended): when an Active task's current instruction is dispatched
with its delay exhausted and the dispatch succeeds, exactly one of the
task's two counters is incremented, chosen by the Waiting sub-status at
the end of dispatch: a task left Waiting gets `waitingTime + 1`, any
other `runningTime + 1`.  (A task whose instruction is still delaying
increments neither counter — see the counterexample theorem.) -/
theorem dispatch_increments_one_counter (m : ManagerType) (s : MState) (tid : Nat)
    (t : Task) (i : Instruction) (s' : MState) (t' : Task)
    (h1 : findTask s tid = some t) (h2 : t.getCurrentInstruction = some i)
    (h4 : i.delay = 0)
    (hok : execute m s tid = .ok s') (ht' : findTask s' tid = some t') :
    (t'.waiting = true → t'.waitingTime = t.waitingTime + 1 ∧ t'.runningTime = t.runningTime) ∧
    (t'.waiting = false → t'.runningTime = t.runningTime + 1 ∧ t'.waitingTime = t.waitingTime) := by
  unfold execute at hok
  simp only [h1, h2, h4, ne_eq, eq_self_iff_true, not_true, if_false] at hok
  cases hdisp : dispatchCmd m s t i with
  | error e => simp only [hdisp] at hok; cases hok
  | ok s1 =>
      simp only [hdisp] at hok
      cases hok
      obtain ⟨u, hu, huid, hurt, huwt⟩ := dispatchCmd_counters m s tid t i s1 h1 hdisp
      unfold execTail at ht'
      simp only [hu] at ht'
      cases hw : u.isWaiting with
      | true =>
          simp only [hw, if_true] at ht'
          rw [findTask_setTask s1 tid u u.incWaitingTime hu (by simp)] at ht'
          cases ht'
          have hwu : u.waiting = true := hw
          refine ⟨fun _ => ⟨by simp [huwt], by simp [hurt]⟩, fun hfalse => ?_⟩
          rw [Task.waiting_incWaitingTime, hwu] at hfalse
          cases hfalse
      | false =>
          simp only [hw, Bool.false_eq_true, if_false] at ht'
          have hwu : u.waiting = false := hw
          cases hfin : (u.incInstruction.incRunningTime).isFinished with
          | true =>
              simp only [hfin, if_true] at ht'
              rw [findTask_setTask s1 tid u _ hu (by simp)] at ht'
              cases ht'
              refine ⟨fun htrue => ?_, fun _ => ⟨by simp [hurt], by simp [huwt]⟩⟩
              rw [Task.waiting_clockEndTime, Task.waiting_incRunningTime,
                Task.waiting_incInstruction, hwu] at htrue
              cases htrue
          | false =>
              simp only [hfin, Bool.false_eq_true, if_false] at ht'
              rw [findTask_setTask s1 tid u _ hu (by simp)] at ht'
              cases ht'
              refine ⟨fun htrue => ?_, fun _ => ⟨by simp [hurt], by simp [huwt]⟩⟩
              rw [Task.waiting_incRunningTime, Task.waiting_incInstruction, hwu] at htrue
              cases htrue

/-- C9 witness: on the concrete state `W9` the dispatched request is
granted, the task ends the dispatch not Waiting, and exactly its
`runningTime` is incremented. -/
theorem dispatch_increments_one_counter_witness :
    (W9taskAfter.waiting = true →
      W9taskAfter.waitingTime = W9task.waitingTime + 1 ∧
        W9taskAfter.runningTime = W9task.runningTime) ∧
    (W9taskAfter.waiting = false →
      W9taskAfter.runningTime = W9task.runningTime + 1 ∧
        W9taskAfter.waitingTime = W9task.waitingTime) :=
  dispatch_increments_one_counter ManagerType.OPTIMISTIC W9 1 W9task
    ⟨"request", 1, 0, 1, 1⟩ W9after W9taskAfter rfl rfl rfl rfl rfl

theorem lookupA_subA (l : List (Nat × Nat)) (k n : Nat) :
    lookupA (subA l k n) k = lookupA l k - n := by
  induction l with
  | nil => simp [lookupA, subA]
  | cons p rest ih =>
      by_cases hp : (p.1 == k) = true
      · have hp2 : p.1 = k := eq_of_beq hp
        simp [lookupA, subA, List.find?_cons, hp, hp2]
      · simp only [subA, List.map_cons, if_neg hp, lookupA, List.find?_cons,
          Bool.not_eq_true] at ih ⊢
        rw [Bool.not_eq_true] at hp
        rw [hp]
        simpa [lookupA, subA] using ih

theorem lookupA_insertAdd (l : List (Nat × Nat)) (k n : Nat) :
    lookupA (insertAdd l k n) k = lookupA l k + n := by
  induction l with
  | nil => simp [lookupA, insertAdd, memA, List.find?_cons]
  | cons p rest ih =>
      by_cases hp : (p.1 == k) = true
      · have hm : memA (p :: rest) k = true := by simp [memA, List.find?_cons, hp]
        have hp2 : p.1 = k := eq_of_beq hp
        rw [insertAdd, if_pos hm]
        simp [lookupA, List.find?_cons, hp, hp2]
      · have hm : memA (p :: rest) k = memA rest k := by
          simp [memA, List.find?_cons, hp]
        by_cases hmr : memA rest k = true
        · rw [insertAdd, if_pos (by rw [hm]; exact hmr)]
          rw [insertAdd, if_pos hmr] at ih
          simp only [List.map_cons, if_neg hp, lookupA, List.find?_cons] at ih ⊢
          rw [Bool.not_eq_true] at hp
          rw [hp]
          simpa [lookupA] using ih
        · rw [insertAdd, if_neg (by rw [hm]; exact hmr)]
          rw [insertAdd, if_neg hmr] at ih
          simp only [List.cons_append, lookupA, List.find?_cons] at ih ⊢
          rw [Bool.not_eq_true] at hp
          rw [hp]
          simpa [lookupA] using ih

/-- A member task's held units are bounded by the held sum. -/
theorem lookupA_le_heldSum (s : MState) (rid : Nat) (t : Task) (ht : t ∈ s.tasks) :
    lookupA t.held rid ≤ heldSum s rid := by
  unfold heldSum
  exact List.single_le_sum (fun x _ => Nat.zero_le x) _
    (List.mem_map_of_mem (fun u => lookupA u.held rid) ht)

@[simp] theorem execTail_freeBuffer (s : MState) (tid : Nat) :
    (execTail s tid).freeBuffer = s.freeBuffer := by
  unfold execTail
  split
  · rfl
  · split <;> simp

@[simp] theorem execTail_resources (s : MState) (tid : Nat) :
    (execTail s tid).resources = s.resources := by
  unfold execTail
  split
  · rfl
  · split <;> simp

/-- The accounting tail keeps the dispatched task findable with its held
units unchanged. -/
theorem execTail_found (s : MState) (tid : Nat) (u : Task)
    (hu : findTask s tid = some u) :
    ∃ w, findTask (execTail s tid) tid = some w ∧ w.held = u.held ∧ w.id = u.id := by
  unfold execTail
  simp only [hu]
  cases hw : u.isWaiting with
  | true =>
      simp only [hw, if_true]
      exact ⟨u.incWaitingTime, findTask_setTask s tid u _ hu (by simp), by simp, by simp⟩
  | false =>
      simp only [hw, Bool.false_eq_true, if_false]
      cases hfin : (u.incInstruction.incRunningTime).isFinished with
      | true =>
          simp only [hfin, if_true]
          exact ⟨(u.incInstruction.incRunningTime).clockEndTime s.sysClock,
            findTask_setTask s tid u _ hu (by simp), by simp, by simp⟩
      | false =>
          simp only [hfin, Bool.false_eq_true, if_false]
          exact ⟨u.incInstruction.incRunningTime,
            findTask_setTask s tid u _ hu (by simp), by simp, by simp⟩

/-- C6: with the books balanced (`busyUnits` equal to the held sum), a
dispatched release succeeds — units moved into the deferred-release
buffer and removed from the task's holdings — if and only if the task
itself holds at least `numUnits` of the named resource.  (When another
task's holdings let the busy-count guard pass but the releasing task
holds less, the modelled `Task.releaseResource` raises the fatal
invariant breach of spec section 7, so no success either.) -/
theorem release_succeeds_iff_held (m : ManagerType) (s : MState) (tid : Nat)
    (t : Task) (i : Instruction) (r : Resource)
    (h1 : findTask s tid = some t) (h2 : t.getCurrentInstruction = some i)
    (h3 : i.command = "release") (h4 : i.delay = 0)
    (h5 : findRes s i.resourceType = some r)
    (h6 : r.busyUnits = heldSum s i.resourceType) :
    (∃ s' t', execute m s tid = .ok s' ∧ findTask s' tid = some t' ∧
        lookupA t'.held i.resourceType = lookupA t.held i.resourceType - i.numUnits ∧
        lookupA s'.freeBuffer i.resourceType =
          lookupA s.freeBuffer i.resourceType + i.numUnits) ↔
      i.numUnits ≤ lookupA t.held i.resourceType := by
  have hrid : r.id = i.resourceType := findRes_spec s _ r h5
  have hmem : t ∈ s.tasks := (findTask_spec s tid t h1).2
  have hle : lookupA t.held i.resourceType ≤ r.busyUnits := by
    rw [h6]; exact lookupA_le_heldSum s _ t hmem
  constructor
  · rintro ⟨s', t', hok, ht', hheld, hbuf⟩
    by_contra hgt
    rw [Nat.not_le] at hgt
    by_cases hbusy : i.numUnits ≤ r.busyUnits
    · have hrel : t.releaseResource r.id i.numUnits = .error .fatalRelease := by
        unfold Task.releaseResource
        rw [if_neg]
        rw [hrid, Nat.not_le]
        exact hgt
      have hfail : execute m s tid = .error .fatalRelease := by
        unfold execute dispatchCmd
        simp [h1, h2, h3, h4, h5, hbusy, hrel]
      rw [hfail] at hok; cases hok
    · have hnum : 1 ≤ i.numUnits := by omega
      have hskip : execute m s tid = .ok (execTail s tid) := by
        unfold execute dispatchCmd
        simp [h1, h2, h3, h4, h5, hbusy]
      rw [hskip] at hok; cases hok
      rw [execTail_freeBuffer] at hbuf
      omega
  · intro hheld
    have hbusy : i.numUnits ≤ r.busyUnits := le_trans hheld hle
    have hrel : t.releaseResource r.id i.numUnits =
        .ok { t with held := subA t.held r.id i.numUnits } := by
      unfold Task.releaseResource
      rw [if_pos]
      rw [hrid]
      exact hheld
    have hfind1 : findTask (setTask (placeIntoFreeBuffer s r.id i.numUnits)
        { t with held := subA t.held r.id i.numUnits }) tid =
        some { t with held := subA t.held r.id i.numUnits } :=
      findTask_setTask (placeIntoFreeBuffer s r.id i.numUnits) tid t _ h1 rfl
    have hok : execute m s tid =
        .ok (execTail (setTask (placeIntoFreeBuffer s r.id i.numUnits)
          { t with held := subA t.held r.id i.numUnits }) tid) := by
      unfold execute dispatchCmd
      simp [h1, h2, h3, h4, h5, hbusy, hrel]
    obtain ⟨w, hw, hwheld, hwid⟩ := execTail_found _ tid _ hfind1
    refine ⟨_, w, hok, hw, ?_, ?_⟩
    · rw [hwheld]
      simp only []
      rw [hrid, lookupA_subA]
    · rw [execTail_freeBuffer, setTask_freeBuffer]
      show lookupA (insertAdd s.freeBuffer r.id i.numUnits) i.resourceType = _
      rw [hrid, lookupA_insertAdd]

/-- C6 witness: on the consistent state `W6` (the task holds the one busy
unit of resource 1) the dispatched release of one unit succeeds: the unit
moves into the deferred-release buffer and leaves the task's holdings. -/
theorem release_succeeds_iff_held_witness :
    ∃ s' t', execute ManagerType.OPTIMISTIC W6 1 = .ok s' ∧ findTask s' 1 = some t' ∧
      lookupA t'.held 1 = lookupA W6task.held 1 - 1 ∧
      lookupA s'.freeBuffer 1 = lookupA W6.freeBuffer 1 + 1 :=
  (release_succeeds_iff_held ManagerType.OPTIMISTIC W6 1 W6task
    ⟨"release", 1, 0, 1, 1⟩ ⟨1, 1, 1⟩ rfl rfl rfl rfl rfl rfl).mpr (by decide)

/-- Core equality gives equality of every non-buffer field. -/
theorem core_fields (s s' : MState) (h : MState.core s = MState.core s') :
    s.tasks = s'.tasks ∧ s.resources = s'.resources ∧ s.waitingTasks = s'.waitingTasks ∧
      s.readyTasks = s'.readyTasks ∧ s.sysClock = s'.sysClock := by
  unfold MState.core at h
  simp only [Prod.mk.injEq] at h
  exact ⟨h.1, h.2.1, h.2.2.1, h.2.2.2.1, h.2.2.2.2⟩

/-- Two core-equal states differ at most in the deferred-release buffer. -/
theorem core_ext (s s' : MState) (h : MState.core s = MState.core s') :
    s' = { s with freeBuffer := s'.freeBuffer } := by
  obtain ⟨h1, h2, h3, h4, h5⟩ := core_fields s s' h
  cases s
  cases s'
  simp only [] at h1 h2 h3 h4 h5
  subst h1; subst h2; subst h3; subst h4; subst h5
  rfl

/-- The optimistic request path reads nothing from the deferred-release
buffer. -/
theorem standardRequest_core_param (t : Task) (i : Instruction)
    (s : MState) (b : List (Nat × Nat)) :
    Except.map MState.core (standardRequest { s with freeBuffer := b } t i) =
      Except.map MState.core (standardRequest s t i) := by
  obtain ⟨ts, rs, wt, rt, fb, ck⟩ := s
  unfold standardRequest
  dsimp only [findTask, findRes, setTask, setRes]
  by_cases hdel : i.delay ≠ 0
  · rw [if_pos hdel]; try rw [if_pos hdel]
    rfl
  · rw [if_neg hdel]; try rw [if_neg hdel]
    cases hr : List.find? (fun r => r.id == i.resourceType) rs with
    | none => rfl
    | some r =>
        simp only []
        by_cases hav : i.numUnits ≤ r.getNumAvailable
        · rw [if_pos hav]; try rw [if_pos hav]
          by_cases hcont : wt.contains t.stopWaiting.id = true
          · rw [if_pos hcont]; try rw [if_pos hcont]
            by_cases htk : (r.takeUnits i.numUnits).1 = true
            · rw [if_pos htk]; try rw [if_pos htk]; rfl
            · rw [if_neg htk]; try rw [if_neg htk]; rfl
          · rw [if_neg hcont]; try rw [if_neg hcont]
            by_cases htk : (r.takeUnits i.numUnits).1 = true
            · rw [if_pos htk]; try rw [if_pos htk]; rfl
            · rw [if_neg htk]; try rw [if_neg htk]; rfl
        · rw [if_neg hav]; try rw [if_neg hav]
          by_cases hcont : wt.contains t.wait.id = true
          · rw [if_pos hcont]; try rw [if_pos hcont]; rfl
          · rw [if_neg hcont]; try rw [if_neg hcont]; rfl

/-- The command dispatch reads nothing from the deferred-release buffer:
replacing the buffer changes nothing of the outcome but the buffer. -/
theorem dispatchCmd_core_param (m : ManagerType) (t : Task) (i : Instruction)
    (s : MState) (b : List (Nat × Nat)) :
    Except.map MState.core (dispatchCmd m { s with freeBuffer := b } t i) =
      Except.map MState.core (dispatchCmd m s t i) := by
  obtain ⟨ts, rs, wt, rt, fb, ck⟩ := s
  unfold dispatchCmd bankerProcessClaims bankerRequest
  dsimp only [findTask, findRes, setTask, setRes, placeIntoFreeBuffer, isSafe]
  by_cases c1 : (i.command == "initiate" && m == ManagerType.BANKER) = true
  · rw [if_pos c1]; try rw [if_pos c1]
    cases hr : List.find? (fun r => r.id == i.resourceType) rs with
    | none => rfl
    | some r =>
        simp only []
        by_cases c2 : r.totalUnits < i.numUnits
        · rw [if_pos c2]; try rw [if_pos c2]; rfl
        · rw [if_neg c2]; try rw [if_neg c2]; rfl
  · rw [if_neg c1]; try rw [if_neg c1]
    by_cases c3 : (i.command == "request") = true
    · rw [if_pos c3]; try rw [if_pos c3]
      by_cases c4 : (m == ManagerType.OPTIMISTIC) = true
      · rw [if_pos c4]; try rw [if_pos c4]
        exact standardRequest_core_param t i ⟨ts, rs, wt, rt, fb, ck⟩ b
      · rw [if_neg c4]; try rw [if_neg c4]
        rw [if_pos (rfl : (true : Bool) = true)]; try rw [if_pos (rfl : (true : Bool) = true)]
        exact standardRequest_core_param t i ⟨ts, rs, wt, rt, fb, ck⟩ b
    · rw [if_neg c3]; try rw [if_neg c3]
      by_cases c5 : (i.command == "release") = true
      · rw [if_pos c5]; try rw [if_pos c5]
        cases hr : List.find? (fun r => r.id == i.resourceType) rs with
        | none => rfl
        | some r =>
            simp only []
            by_cases c6 : i.numUnits ≤ r.busyUnits
            · rw [if_pos c6]; try rw [if_pos c6]
              cases hrel : t.releaseResource r.id i.numUnits with
              | ok t1 => rfl
              | error e => rfl
            · rw [if_neg c6]; try rw [if_neg c6]; rfl
      · rw [if_neg c5]; try rw [if_neg c5]; rfl

/-- The accounting tail reads nothing from the deferred-release buffer. -/
theorem execTail_core_param (tid : Nat) (s : MState) (b : List (Nat × Nat)) :
    MState.core (execTail { s with freeBuffer := b } tid) =
      MState.core (execTail s tid) := by
  obtain ⟨ts, rs, wt, rt, fb, ck⟩ := s
  unfold execTail
  dsimp only [findTask, setTask]
  repeat' (first | rfl | split)

/-- Relational form of `execTail_core_param`. -/
theorem execTail_core_rel (tid : Nat) (s s' : MState)
    (h : MState.core s = MState.core s') :
    MState.core (execTail s tid) = MState.core (execTail s' tid) := by
  rw [core_ext s s' h]
  exact (execTail_core_param tid s s'.freeBuffer).symm

/-- Instruction dispatch reads nothing from the deferred-release buffer:
replacing the buffer changes nothing of the outcome but the buffer. -/
theorem execute_core_param (m : ManagerType) (tid : Nat) (s : MState)
    (b : List (Nat × Nat)) :
    Except.map MState.core (execute m { s with freeBuffer := b } tid) =
      Except.map MState.core (execute m s tid) := by
  unfold execute
  rw [show findTask { s with freeBuffer := b } tid = findTask s tid from rfl]
  cases hf : findTask s tid with
  | none => rfl
  | some t =>
      simp only []
      cases hcur : t.getCurrentInstruction with
      | none => rfl
      | some i =>
          simp only []
          by_cases hdel : i.delay ≠ 0
          · rw [if_pos hdel]
            try rw [if_pos hdel]
            rfl
          · rw [if_neg hdel]
            try rw [if_neg hdel]
            have hdd := dispatchCmd_core_param m t i s b
            cases hd1 : dispatchCmd m { s with freeBuffer := b } t i with
            | error e =>
                cases hd2 : dispatchCmd m s t i with
                | error e2 =>
                    rw [hd1, hd2] at hdd
                    simp only [Except.map] at hdd
                    cases hdd
                    rfl
                | ok s2 =>
                    rw [hd1, hd2] at hdd
                    simp only [Except.map] at hdd
                    cases hdd
            | ok s1 =>
                cases hd2 : dispatchCmd m s t i with
                | error e =>
                    rw [hd1, hd2] at hdd
                    simp only [Except.map] at hdd
                    cases hdd
                | ok s2 =>
                    rw [hd1, hd2] at hdd
                    simp only [Except.map] at hdd
                    injection hdd with hcc
                    simp only [Except.map]
                    exact congrArg Except.ok (execTail_core_rel tid s1 s2 hcc)

/-- Relational form of `execute_core_param`. -/
theorem execute_core_rel (m : ManagerType) (tid : Nat) (s s' : MState)
    (h : MState.core s = MState.core s') :
    Except.map MState.core (execute m s tid) = Except.map MState.core (execute m s' tid) := by
  rw [core_ext s s' h]
  exact (execute_core_param m tid s s'.freeBuffer).symm

/-- The waiting pass preserves core equality. -/
theorem passWaitingAux_core (m : ManagerType) (ids : List Nat) (s s' : MState)
    (h : MState.core s = MState.core s') :
    Except.map MState.core (passWaitingAux m ids s) =
      Except.map MState.core (passWaitingAux m ids s') := by
  induction ids generalizing s s' with
  | nil => simp only [passWaitingAux, Except.map]; exact congrArg _ h
  | cons tid rest ih =>
      have hts : s.tasks = s'.tasks := (core_fields s s' h).1
      unfold passWaitingAux
      rw [show findTask s tid = findTask s' tid from by unfold findTask; rw [hts]]
      cases hf : findTask s' tid with
      | none => exact ih s s' h
      | some t =>
          simp only []
          by_cases ha : t.isActive = true
          · rw [if_pos ha, if_pos ha]
            have hee := execute_core_rel m tid s s' h
            cases he1 : execute m s tid with
            | error e =>
                cases he2 : execute m s' tid with
                | error e2 =>
                    rw [he1, he2] at hee
                    simp only [Except.map] at hee
                    cases hee
                    rfl
                | ok s2 =>
                    rw [he1, he2] at hee
                    simp only [Except.map] at hee
                    cases hee
            | ok s2 =>
                cases he2 : execute m s' tid with
                | error e =>
                    rw [he1, he2] at hee
                    simp only [Except.map] at hee
                    cases hee
                | ok s2' =>
                    rw [he1, he2] at hee
                    simp only [Except.map] at hee
                    injection hee with hcc
                    exact ih s2 s2' hcc
          · rw [if_neg ha, if_neg ha]
            exact ih s s' h

/-- The active pass preserves core equality. -/
theorem passActiveAux_core (m : ManagerType) (ids : List Nat) (s s' : MState)
    (h : MState.core s = MState.core s') :
    Except.map MState.core (passActiveAux m ids s) =
      Except.map MState.core (passActiveAux m ids s') := by
  induction ids generalizing s s' with
  | nil => simp only [passActiveAux, Except.map]; exact congrArg _ h
  | cons tid rest ih =>
      have hts : s.tasks = s'.tasks := (core_fields s s' h).1
      have hrt : s.readyTasks = s'.readyTasks := (core_fields s s' h).2.2.2.1
      unfold passActiveAux
      rw [show findTask s tid = findTask s' tid from by unfold findTask; rw [hts]]
      cases hf : findTask s' tid with
      | none => exact ih s s' h
      | some t =>
          simp only []
          rw [hrt]
          by_cases ha : (t.isActive && !t.isWaiting && !(s'.readyTasks.contains tid)) = true
          · rw [if_pos ha, if_pos ha]
            have hee := execute_core_rel m tid s s' h
            cases he1 : execute m s tid with
            | error e =>
                cases he2 : execute m s' tid with
                | error e2 =>
                    rw [he1, he2] at hee
                    simp only [Except.map] at hee
                    cases hee
                    rfl
                | ok s2 =>
                    rw [he1, he2] at hee
                    simp only [Except.map] at hee
                    cases hee
            | ok s2 =>
                cases he2 : execute m s' tid with
                | error e =>
                    rw [he1, he2] at hee
                    simp only [Except.map] at hee
                    cases hee
                | ok s2' =>
                    rw [he1, he2] at hee
                    simp only [Except.map] at hee
                    injection hee with hcc
                    exact ih s2 s2' hcc
          · rw [if_neg ha, if_neg ha]
            exact ih s s' h

/-- C2 (amended): the waiting and active service passes of a tick never
read the deferred-release buffer — their decisions and every non-buffer
component of the outcome are the same for any buffer contents, so units
buffered during tick `t` are not counted as available by requests
serviced in those passes; the buffer reaches the resources only via
`cleanFreeBuffer`, which `run` calls at the tick boundary and
`resolveDeadlock` additionally calls mid-tick after an abort (see the
counterexample theorem). -/
theorem servicePasses_ignore_freeBuffer (m : ManagerType) (s : MState)
    (b : List (Nat × Nat)) :
    Except.map MState.core
        (phaseWaiting m { s with freeBuffer := b } >>= phaseActive m) =
      Except.map MState.core (phaseWaiting m s >>= phaseActive m) := by
  have h1 : Except.map MState.core (phaseWaiting m { s with freeBuffer := b }) =
      Except.map MState.core (phaseWaiting m s) := by
    unfold phaseWaiting
    exact passWaitingAux_core m s.waitingTasks _ s rfl
  cases hw1 : phaseWaiting m { s with freeBuffer := b } with
  | error e =>
      cases hw2 : phaseWaiting m s with
      | error e2 =>
          rw [hw1, hw2] at h1
          simp only [Except.map] at h1
          cases h1
          rfl
      | ok s2 =>
          rw [hw1, hw2] at h1
          simp only [Except.map] at h1
          cases h1
  | ok s1 =>
      cases hw2 : phaseWaiting m s with
      | error e =>
          rw [hw1, hw2] at h1
          simp only [Except.map] at h1
          cases h1
      | ok s2 =>
          rw [hw1, hw2] at h1
          simp only [Except.map] at h1
          injection h1 with hcc
          simp only [bind, Except.bind]
          unfold phaseActive
          rw [show s1.tasks.map (fun t => t.id) = s2.tasks.map (fun t => t.id) from by
            rw [(core_fields s1 s2 hcc).1]]
          exact passActiveAux_core m _ s1 s2 hcc

end RM
